import Mathlib

/-!
A verification development for `copycat.py`, an unattended backup daemon.
The Python source is shallowly embedded: paths are strings manipulated with
the same textual operations the source uses (`os.path.join`, `str.find`,
slicing, `lstrip`), file contents are lists of byte values, the SHA-512
digest of `hash_file` is represented by the exact byte stream folded into
`hashlib.sha512` (digest equality corresponds to stream equality under the
usual collision-free idealization of the hash), and the effectful parts
(hashing, copying, mounting, walking) are modelled as pure state-passing
functions over oracles for the outcomes of the I/O primitives.
-/

/-- A broken-down local time as delivered by `time.localtime` and consumed by
`time.strftime("%Y-%m-%d_%H_%M-%S")` (copycat.py:164): year, month, day,
hour, minute, second fields. -/
structure Tm where
  year : Nat
  month : Nat
  day : Nat
  hour : Nat
  minute : Nat
  second : Nat
deriving DecidableEq

/-- A wall-clock instant at which a backup worker starts: the broken-down
second (`tm`) plus the sub-second part (`millis`), which `strftime` with the
format `"%Y-%m-%d_%H_%M-%S"` discards. Two distinct instants inside the same
second are distinct run starts that format to the same timestamp string. -/
structure Instant where
  tm : Tm
  millis : Nat
deriving DecidableEq

/-- The decimal digit character for `n % 10` (as produced by `strftime`'s
zero-padded numeric fields). -/
def dchar (n : Nat) : Char := Char.ofNat (48 + n % 10)

/-- Two zero-padded decimal digits, as `strftime` renders `%m`, `%d`, `%H`,
`%M`, `%S`. -/
def dlist2 (n : Nat) : List Char := [dchar (n / 10), dchar n]

/-- Four zero-padded decimal digits, as `strftime` renders `%Y` for years in
`[1000, 9999]`. -/
def dlist4 (n : Nat) : List Char := [dchar (n / 1000), dchar (n / 100), dchar (n / 10), dchar n]

/-- The character list of `time.strftime("%Y-%m-%d_%H_%M-%S", t)`
(copycat.py:164). -/
def tchars (t : Tm) : List Char :=
  dlist4 t.year ++ '-' :: dlist2 t.month ++ '-' :: dlist2 t.day ++
    '_' :: dlist2 t.hour ++ '_' :: dlist2 t.minute ++ '-' :: dlist2 t.second

/-- `time.strftime("%Y-%m-%d_%H_%M-%S", t)` as a string (copycat.py:164). -/
def strftime (t : Tm) : String := String.mk (tchars t)

/-- The backup timestamp minted once per disk attachment at the start of
`backup` (copycat.py:164): `strftime` applied to the worker's start instant;
the sub-second part of the instant is dropped by the format. -/
def mintTimestamp (i : Instant) : String := strftime i.tm

/-- `os.path.join(a, b)` for POSIX paths (used throughout copycat.py): an
absolute second component replaces the first; otherwise the components are
concatenated with a single `/` inserted unless the first is empty or already
ends in `/`. In particular `join(a, "") = a + "/"` for nonempty `a` not
ending in a separator. -/
def pjoin (a b : String) : String :=
  if b.data.head? = some '/' then b
  else if a.data = [] ∨ a.data.getLast? = some '/' then String.mk (a.data ++ b.data)
  else String.mk (a.data ++ '/' :: b.data)

/-- `p.split(os.sep)[-1]` (copycat.py:156,186,196): the substring after the
last `/` of `p`. -/
def lastComp (p : String) : String :=
  String.mk (p.data.foldl (fun acc c => if c = '/' then [] else acc ++ [c]) [])

/-- Boolean test that `needle` is a prefix of `hay` (character lists). -/
def prefixEq : List Char → List Char → Bool
  | [], _ => true
  | _ :: _, [] => false
  | a :: as, b :: bs => a = b && prefixEq as bs

/-- Python's substring containment `needle in hay` for strings, used by the
supervisor's blacklist test `disk not in config.get('blacklist')`
(copycat.py:274): `needle` occurs contiguously somewhere in `hay`. -/
def isSubstr : List Char → List Char → Bool
  | needle, [] => prefixEq needle []
  | needle, c :: t => prefixEq needle (c :: t) || isSubstr needle t

/-- Split a character list at every `/` (the pieces between separators,
including empty pieces). -/
def splitSep : List Char → List (List Char)
  | [] => [[]]
  | c :: cs =>
    match splitSep cs with
    | [] => []
    | h :: t => if c = '/' then [] :: h :: t else (c :: h) :: t

/-- The nonempty `/`-separated components of a path string. -/
def splitComps (p : String) : List String :=
  ((splitSep p.data).filter (fun c => c ≠ [])).map String.mk

/-- Resolve `.` and `..` components of an absolute path (for comparing a
textually written path with the filesystem location it denotes). -/
def normalizeComps (cs : List String) : List String :=
  cs.foldl (fun acc c => if c = "." then acc else if c = ".." then acc.dropLast else acc ++ [c]) []

/-- The relative-subdirectory computation of `backup_dir`
(copycat.py:140-143 and 148-151): if `location.find(srcmount) == 0` (i.e.
`srcmount` is a textual prefix of `location`) take
`location[len(srcmount):].lstrip(os.sep)`, otherwise `location.lstrip(os.sep)`. -/
def subdir_calc (srcmount location : String) : String :=
  if srcmount.data.isPrefixOf location.data then
    String.mk ((location.data.drop srcmount.data.length).dropWhile (fun c => c = '/'))
  else
    String.mk (location.data.dropWhile (fun c => c = '/'))

/-- Modelled from the spec: "true path-relative computation" of the
subdirectory of `loc` with respect to the mount root `root` — both paths are
normalized to their resolved component lists and, when the root's components
are an initial segment of the location's, the remaining components are the
relative subdirectory; `none` when `loc` does not lie under `root`. This is
the specification's mandated replacement for the source's textual
prefix-strip; it exists only to be compared against `subdir_calc`. -/
def relative_subdir_specModel (root loc : String) : Option (List String) :=
  let r := normalizeComps (splitComps root)
  let l := normalizeComps (splitComps loc)
  if r.isPrefixOf l then some (l.drop r.length) else none

/-- The streaming block size of `hash_file` (copycat.py:50): 1 MiB. -/
def block_size : Nat := 1048576

/-- The partial-hash policy of `copyfile` (copycat.py:93-96): partial
hashing is selected exactly for files whose size exceeds 32 MiB
(33554432 bytes). -/
def is_partial_hash (size : Nat) : Bool := decide (33554432 < size)

/-- The byte stream folded into `hashlib.sha512` by `hash_file`
(copycat.py:49-66), for a file whose content is `d`. When the sampling flag
is false the whole file is folded. When it is true the three reads of the
source are folded in order: `f.read(block_size)` from the start,
`f.read(block_size)` after `f.seek(-block_size, 2)` (the last 1 MiB, after
which `f.tell()` is the file size), and `f.read(block_size)` after
`f.seek(int(f.tell()/2) - int(block_size/2))` (the 1 MiB window centered at
the file's midpoint). The digest returned by `hash_file` is the SHA-512 of
exactly this stream, so digest equality is stream equality under the
collision-free idealization of SHA-512. -/
def hashStream (d : List Nat) (sampled : Bool) : List Nat :=
  if sampled then
    (d.take block_size) ++
      ((d.drop (d.length - block_size)).take block_size) ++
      ((d.drop (d.length / 2 - block_size / 2)).take block_size)
  else d

/-- Membership of byte index `i` in one of the three sampled windows of a
file of size `n`: the first 1 MiB, the last 1 MiB, or the 1 MiB block
centered at the midpoint. -/
def inWindow (n i : Nat) : Prop :=
  i < block_size ∨ (n - block_size ≤ i ∧ i < n) ∨
    (n / 2 - block_size / 2 ≤ i ∧ i < n / 2 - block_size / 2 + block_size)

instance (n i : Nat) : Decidable (inWindow n i) := by
  unfold inWindow; infer_instance

/-- The outcome of one `hash_file` call (copycat.py:49-67): either the
hexdigest string is returned, or opening/seeking/reading the file raises
`IOError`, which propagates out of `hash_file` (the trailing `return None`
on line 67 sits after the `return` inside the `with` block and is
unreachable, so `hash_file` never returns `None`). -/
inductive HashOutcome where
  | digest (d : String)
  | ioError
deriving DecidableEq

/-- Oracle for the hashing I/O performed by `copyfile` on attempt `numtry`:
`pre n` is the outcome of `hash_file(src, hash_is_partial)` and `post n` the
outcome of `hash_file(dest, hash_is_partial)` on the attempt with
`numtry = n`. (`cp -a` itself is assumed to run; what it produced at `dest`
is reflected in `post`.) -/
structure AttemptEnv where
  pre : Nat → HashOutcome
  post : Nat → HashOutcome

/-- The configuration flags read by `copyfile` (copycat.py:79-124). -/
structure CopyCfg where
  verbose : Bool
  debug : Bool
  hardlink : Bool
deriving DecidableEq

/-- The observable trace of one `copyfile` call: messages put on the queue,
the number of `cp -a` invocations, the number of dedup `ln` invocations,
whether a file is present at the destination path, and the rows inserted
into the `files` table. -/
structure CopyTrace where
  msgs : List String
  cpCount : Nat
  lnCount : Nat
  destPresent : Bool
  records : List (String × String × String × String)
deriving DecidableEq

/-- The dedup lookup table of `copyfile` (copycat.py:102): the literal list
`['TODO']`. The lookup `pre_copy_file_hash in db_hash_table` is a membership
test against this constant; the persisted `files` table is never consulted.
(Were the test ever true, `db_hash_table[pre_copy_file_hash]` on line 104
would moreover raise `TypeError`, a list being indexed with a string.) -/
def db_hash_table : List String := ["TODO"]

/-- The verbose/debug message emitted at the top of `copyfile`
(copycat.py:80-83), before the retry-limit check. -/
def logCopying (cfg : CopyCfg) (location subdir file : String) (tr : CopyTrace) : CopyTrace :=
  if cfg.verbose then { tr with msgs := tr.msgs ++ ["copying: " ++ subdir ++ " " ++ file] }
  else if cfg.debug then
    { tr with msgs := tr.msgs ++ ["DEBUG: copyfile: " ++ location ++ " " ++ subdir ++ " " ++ file] }
  else tr

/-- One evaluation of `copyfile` (copycat.py:79-124), fuel-indexed so that
the self-call with `numtry + 1` is structural; `copyfile` below supplies
fuel `4 - numtry + 1`, which always covers the recursion depth (the guard
`numtry > 3` stops it), so the fuel-0 branch is unreachable. `Except.error`
models an uncaught `IOError` from `hash_file` propagating out of `copyfile`;
`Except.ok` is a normal return. Step by step: emit the verbose/debug
message; if `numtry > 3` report `"Could not copy ..."` and return; hash the
source; if hardlinking is on and the pre-hash is in `db_hash_table`, `ln`
and return; otherwise `cp -a`, hash the destination, and on mismatching
digests recurse with `numtry + 1`, else report, insert the `files` row and
return. (`os.makedirs` and the debug `cp`/`ln` echo lines are not traced.) -/
def copyfile_fuel (cfg : CopyCfg) (env : AttemptEnv)
    (location subdir file ts src dest : String) :
    Nat → Nat → CopyTrace → Except CopyTrace CopyTrace
  | 0, _, tr => .ok tr
  | fuel + 1, numtry, tr =>
    let tr := logCopying cfg location subdir file tr
    if numtry > 3 then
      .ok { tr with msgs := tr.msgs ++ ["Could not copy " ++ pjoin (pjoin location subdir) file] }
    else
      match env.pre numtry with
      | .ioError => .error tr
      | .digest preH =>
        if cfg.hardlink = true ∧ preH ∈ db_hash_table then
          .ok { tr with lnCount := tr.lnCount + 1, destPresent := true }
        else
          let tr := { tr with cpCount := tr.cpCount + 1, destPresent := true }
          match env.post numtry with
          | .ioError => .error tr
          | .digest postH =>
            if preH ≠ postH then
              copyfile_fuel cfg env location subdir file ts src dest fuel (numtry + 1) tr
            else
              .ok { tr with
                      msgs := if cfg.verbose then tr.msgs ++ ["copied: " ++ file] else tr.msgs,
                      records := tr.records ++ [(postH, ts, src, dest)] }

/-- `copyfile(disk_name, location, subdir, file, backuptimestamp, ...)`
(copycat.py:79): `src = os.path.join(location, subdir, file)` and
`dest = os.path.join(backupdir, backuptimestamp, disk_name, subdir, file)`
(lines 87-90). -/
def copyfile (cfg : CopyCfg) (env : AttemptEnv) (backupdir disk_name location subdir file ts : String)
    (numtry : Nat) (tr : CopyTrace) : Except CopyTrace CopyTrace :=
  let src := pjoin (pjoin location subdir) file
  let dest := pjoin (pjoin (pjoin (pjoin backupdir ts) disk_name) subdir) file
  copyfile_fuel cfg env location subdir file ts src dest (4 - numtry + 1) numtry tr

/-- The trace carried by a `copyfile` result, whether it returned or raised. -/
def traceOf : Except CopyTrace CopyTrace → CopyTrace
  | .ok tr => tr
  | .error tr => tr

/-- The classification `os.path.islink` / `os.path.isdir` / `os.path.isfile`
gives one directory entry in `backup_dir`'s loop (copycat.py:138-152). -/
inductive EKind where
  | file
  | dir
  | symlink
deriving DecidableEq

/-- One entry of an `os.listdir` result: its name and its classification. -/
structure DirEntry where
  name : String
  kind : EKind
deriving DecidableEq

/-- One placement performed during a run: the `disk_name` argument the walker
passed down, the backup timestamp, the computed relative subdirectory, the
file name, and whether it was placed by `copylink` (a symlink) rather than
`copyfile`. -/
structure Placement where
  label : String
  ts : String
  subdir : String
  fname : String
  isLink : Bool
deriving DecidableEq

/-- The destination path of a placement, from `copyfile`/`copylink`
(copycat.py:70-72 and 87-89):
`os.path.join(backupdir, backuptimestamp, disk_name, subdir, file)`. -/
def destPathOf (backupdir : String) (pl : Placement) : String :=
  pjoin (pjoin (pjoin (pjoin backupdir pl.ts) pl.label) pl.subdir) pl.fname

/-- The body of `backup_dir`'s entry loop (copycat.py:133-152), processing
the entries of the directory at `location` in order. `recurse` is the
recursive `backup_dir` call for a subdirectory (applied to the new
`location`, i.e. the absolute child path `nfile`). `hashOk src` tells
whether `hash_file(src, ...)` succeeds inside `copyfile`; when it does not,
the `IOError` propagates out of `copyfile` and aborts the walk, which the
boolean component `true` of the result records (placements already made are
kept, later entries are not visited). Dotfiles are skipped when
`copyDot = false`; symlinks are re-linked by `copylink` (no hashing);
directories recurse; regular files go to `copyfile`. -/
def walkEntries (copyDot : Bool) (hashOk : String → Bool)
    (recurse : String → List Placement × Bool)
    (dn srcmount ts location : String) : List DirEntry → List Placement × Bool
  | [] => ([], false)
  | e :: rest =>
    if e.name.data.head? = some '.' ∧ copyDot = false then
      walkEntries copyDot hashOk recurse dn srcmount ts location rest
    else
      match e.kind with
      | .symlink =>
        let out := walkEntries copyDot hashOk recurse dn srcmount ts location rest
        (⟨dn, ts, subdir_calc srcmount location, e.name, true⟩ :: out.1, out.2)
      | .dir =>
        let nfile := pjoin (pjoin srcmount location) e.name
        let sub := recurse nfile
        if sub.2 then (sub.1, true)
        else
          let out := walkEntries copyDot hashOk recurse dn srcmount ts location rest
          (sub.1 ++ out.1, out.2)
      | .file =>
        let subdir := subdir_calc srcmount location
        if hashOk (pjoin (pjoin srcmount subdir) e.name) then
          let out := walkEntries copyDot hashOk recurse dn srcmount ts location rest
          (⟨dn, ts, subdir, e.name, false⟩ :: out.1, out.2)
        else ([], true)

/-- `backup_dir(disk_name, srcmount, location, ...)` (copycat.py:128-152):
list the directory at `sourcedir = os.path.join(srcmount, location)` and
process each entry with `walkEntries`, recursing into subdirectories with
the child's absolute path as the new `location`. `listdir` is the
filesystem oracle for `os.listdir`. The fuel bounds the recursion depth
(Python's recursion limit); exhausting it counts as a crash, and any fuel
at least the tree depth gives the walk of the source itself. -/
def backup_dir (copyDot : Bool) (listdir : String → List DirEntry) (hashOk : String → Bool)
    (dn srcmount ts : String) : Nat → String → List Placement × Bool
  | 0, _ => ([], true)
  | fuel + 1, location =>
    walkEntries copyDot hashOk (backup_dir copyDot listdir hashOk dn srcmount ts fuel)
      dn srcmount ts location (listdir (pjoin srcmount location))

/-- The observable trace of one disk-backup worker (`backup`,
copycat.py:155-212): queue messages, the devices/partitions mounted and
unmounted, the placements performed, and whether an exception escaped the
walk (killing the worker after its `finally` blocks ran). -/
structure RunTrace where
  messages : List String
  mounted : List String
  unmounted : List String
  placements : List Placement
  crashed : Bool
deriving DecidableEq

/-- The partition loop of `backup` (copycat.py:192-212). For each partition
(skipping an entry equal to the disk itself, line 194-195): announce it,
mount it read-only at `os.path.join(disklocation, partition_name)`, walk it
with `backup_dir(partition_name, partitionlocation, "", ...)` — note the
partition's base name is passed as the `disk_name` argument — and, in a
`finally` block, unmount it. An exception during the walk still triggers
the unmount, but then propagates: the loop stops and the remaining
partitions are not processed (`crashed := true`). -/
def backupPartsGo (copyDot : Bool) (listdir : String → List DirEntry) (hashOk : String → Bool)
    (fuel : Nat) (disk disklocation ts : String) : List String → RunTrace → RunTrace
  | [], tr => tr
  | p :: rest, tr =>
    if p = disk then backupPartsGo copyDot listdir hashOk fuel disk disklocation ts rest tr
    else
      let pname := lastComp p
      let ploc := pjoin disklocation pname
      let tr := { tr with
                    messages := tr.messages ++ ["Mount and backup partition " ++ p ++ "."],
                    mounted := tr.mounted ++ [p] }
      let out := backup_dir copyDot listdir hashOk pname ploc ts fuel ""
      let tr := { tr with placements := tr.placements ++ out.1, unmounted := tr.unmounted ++ [p] }
      if out.2 then { tr with crashed := true }
      else backupPartsGo copyDot listdir hashOk fuel disk disklocation ts rest tr

/-- The disk-backup worker `backup(disk, q, config, db)` (copycat.py:155-212).
It computes `disklocation = os.path.join(mountdir, disk.split(os.sep)[-1])`,
mints the backup timestamp once (line 164) from its start instant, and then
either — when `get_partitions(disk)` returned no partitions — mounts the
whole disk and walks it under `disk_name = disk.split(os.sep)[-1]`, or runs
the partition loop. `partitions` is the `get_partitions(disk)` result (the
glob matches of `disk + "*"` minus `disk` itself, sorted). -/
def backup (copyDot : Bool) (listdir : String → List DirEntry) (hashOk : String → Bool)
    (fuel : Nat) (mountdir : String) (disk : String) (partitions : List String)
    (i : Instant) : RunTrace :=
  let disklocation := pjoin mountdir (lastComp disk)
  let ts := mintTimestamp i
  if partitions = [] then
    let dname := lastComp disk
    let out := backup_dir copyDot listdir hashOk dname disklocation ts fuel ""
    ⟨["Mount and backup disk " ++ disk ++ "."], [disk], [disk], out.1, out.2⟩
  else
    backupPartsGo copyDot listdir hashOk fuel disk disklocation ts partitions ⟨[], [], [], [], false⟩

/-- The supervisor's new-device test (copycat.py:272-274): a device `disk`
from the current poll is treated as newly attached — and goes on to the
debounce re-check and worker spawn — exactly when `disk not in last_disks`
(exact list membership) and `disk not in config.get('blacklist')`, the
latter being Python substring containment in the blacklist *string*. -/
def newly_attached (current last : List String) (blacklist : String) (disk : String) : Bool :=
  current.contains disk && !(last.contains disk) && !(isSubstr disk.data blacklist.data)

/-- Modelled from the spec: the Config "device blacklist (set)" as a set of
device addresses with exact membership — a device is newly attached when
present in the current poll's set, absent from the previous poll's set, and
not a member of the blacklist set. This is the spec's reading of the test,
to be compared against `newly_attached`. -/
def newly_attached_specModel (current last blacklistSet : List String) (disk : String) : Bool :=
  current.contains disk && !(last.contains disk) && !(blacklistSet.contains disk)

/-- A quiet configuration: `verbose = no`, `debug = no`, `hardlink = yes`
(hardlinking is the default, copycat.py:225). -/
def cfgQuiet : CopyCfg := ⟨false, false, true⟩

/-- Hashing oracle for a healthy duplicate: every attempt's pre- and
post-copy digests are the same digest `"d1"` — the digest of content that an
earlier, successfully recorded placement already produced. -/
def envSame : AttemptEnv := ⟨fun _ => .digest "d1", fun _ => .digest "d1"⟩

/-- Hashing oracle for simulated corruption: on every attempt the source
hashes to `"aa"` and the copied destination to `"bb"`. -/
def envMismatch : AttemptEnv := ⟨fun _ => .digest "aa", fun _ => .digest "bb"⟩

/-- Hashing oracle for an unreadable source file: `hash_file` raises
`IOError` on every attempt. -/
def envBad : AttemptEnv := ⟨fun _ => .ioError, fun _ => .ioError⟩

/-- The empty trace at the start of a `copyfile` call. -/
def trInit : CopyTrace := ⟨[], 0, 0, false, []⟩

/-- Source tree for the unreadable-file scenario. -/
def listUnreadable : String → List DirEntry := fun p =>
  if p = "/media/copycat/sda/" then [⟨"bad.txt", .file⟩, ⟨"good.txt", .file⟩] else []

/-- Hashing succeeds for every source except the unreadable `bad.txt`. -/
def hashOkUnreadable : String → Bool := fun s => s != "/media/copycat/sda/bad.txt"

/-- The trace left by three mismatching hash-copy-verify attempts followed by
the `"Could not copy"` report (the shape `copyfile` produces when every
attempt's digests disagree). -/
def mismatchFinal (cfg : CopyCfg) (location subdir file : String) (tr : CopyTrace) : CopyTrace :=
  let t1 := logCopying cfg location subdir file tr
  let t2 := { t1 with cpCount := t1.cpCount + 1, destPresent := true }
  let t3 := logCopying cfg location subdir file t2
  let t4 := { t3 with cpCount := t3.cpCount + 1, destPresent := true }
  let t5 := logCopying cfg location subdir file t4
  let t6 := { t5 with cpCount := t5.cpCount + 1, destPresent := true }
  let t7 := logCopying cfg location subdir file t6
  { t7 with msgs := t7.msgs ++ ["Could not copy " ++ pjoin (pjoin location subdir) file] }

/-- A device tree with one partition `sda1` holding a single regular file
`f.txt` at the partition root (the walker lists the mounted location
`/media/copycat/sda/sda1/`, i.e. `os.path.join(partitionlocation, "")`). -/
def listOnePart : String → List DirEntry := fun p =>
  if p = "/media/copycat/sda/sda1/" then [⟨"f.txt", .file⟩] else []

/-- A device tree with two partitions: `sda1` holds an unreadable `bad.txt`,
`sda2` holds a healthy `g.txt`. -/
def listTwoParts : String → List DirEntry := fun p =>
  if p = "/media/copycat/sda/sda1/" then [⟨"bad.txt", .file⟩]
  else if p = "/media/copycat/sda/sda2/" then [⟨"g.txt", .file⟩] else []

/-- Hashing fails exactly on the unreadable file of the first partition. -/
def hashOkTwoParts : String → Bool := fun s => s != "/media/copycat/sda/sda1/bad.txt"

/-- A worker start instant: 2026-01-02 03:04:05 and 0 ms. -/
def i0 : Instant := ⟨⟨2026, 1, 2, 3, 4, 5⟩, 0⟩

/-- Well-formed broken-down time fields: 4-digit year and 2-digit
month/day/hour/minute/second (the ranges `time.localtime` produces). -/
def TmWF (t : Tm) : Prop :=
  1000 ≤ t.year ∧ t.year < 10000 ∧ t.month < 100 ∧ t.day < 100 ∧
    t.hour < 100 ∧ t.minute < 100 ∧ t.second < 100

instance (t : Tm) : Decidable (TmWF t) := by
  unfold TmWF; infer_instance

/-- The chronological order of broken-down times at second granularity,
encoded as a single natural number. -/
def tmKey (t : Tm) : Nat :=
  ((((t.year * 100 + t.month) * 100 + t.day) * 100 + t.hour) * 100 + t.minute) * 100 + t.second

/-! ## Supporting lemmas -/

theorem logCopying_cpCount (cfg : CopyCfg) (l s f : String) (tr : CopyTrace) :
    (logCopying cfg l s f tr).cpCount = tr.cpCount := by
  unfold logCopying; split <;> try rfl
  split <;> rfl

theorem logCopying_lnCount (cfg : CopyCfg) (l s f : String) (tr : CopyTrace) :
    (logCopying cfg l s f tr).lnCount = tr.lnCount := by
  unfold logCopying; split <;> try rfl
  split <;> rfl

theorem logCopying_records (cfg : CopyCfg) (l s f : String) (tr : CopyTrace) :
    (logCopying cfg l s f tr).records = tr.records := by
  unfold logCopying; split <;> try rfl
  split <;> rfl

theorem logCopying_destPresent (cfg : CopyCfg) (l s f : String) (tr : CopyTrace) :
    (logCopying cfg l s f tr).destPresent = tr.destPresent := by
  unfold logCopying; split <;> try rfl
  split <;> rfl

theorem copyfile_mismatch_run (cfg : CopyCfg) (env : AttemptEnv)
    (backupdir dn location subdir file ts : String) (tr : CopyTrace)
    (h : ∀ n, 1 ≤ n → n ≤ 3 →
      ∃ p q, env.pre n = .digest p ∧ env.post n = .digest q ∧ p ≠ q ∧ p ∉ db_hash_table) :
    copyfile cfg env backupdir dn location subdir file ts 1 tr
      = .ok (mismatchFinal cfg location subdir file tr) := by
  obtain ⟨p1, q1, hp1, hq1, hne1, hm1⟩ := h 1 (by omega) (by omega)
  obtain ⟨p2, q2, hp2, hq2, hne2, hm2⟩ := h 2 (by omega) (by omega)
  obtain ⟨p3, q3, hp3, hq3, hne3, hm3⟩ := h 3 (by omega) (by omega)
  have hl1 : ¬ (cfg.hardlink = true ∧ p1 ∈ db_hash_table) := fun hc => hm1 hc.2
  have hl2 : ¬ (cfg.hardlink = true ∧ p2 ∈ db_hash_table) := fun hc => hm2 hc.2
  have hl3 : ¬ (cfg.hardlink = true ∧ p3 ∈ db_hash_table) := fun hc => hm3 hc.2
  unfold copyfile
  rw [show (4 - 1 + 1 : Nat) = 3 + 1 from rfl, copyfile_fuel]
  simp only [show ¬ (1 : Nat) > 3 by omega, if_false, hp1, hq1, if_neg hl1, if_pos hne1]
  rw [show (3 : Nat) = 2 + 1 from rfl, copyfile_fuel]
  simp only [show ¬ (2 : Nat) > 3 by omega, if_false, hp2, hq2, if_neg hl2, if_pos hne2]
  rw [show (2 : Nat) = 1 + 1 from rfl, copyfile_fuel]
  simp only [show ¬ (3 : Nat) > 3 by omega, if_false, hp3, hq3, if_neg hl3, if_pos hne3]
  rw [show (1 : Nat) = 0 + 1 from rfl, copyfile_fuel]
  simp only [show (4 : Nat) > 3 by omega, if_true]
  rfl

theorem walkEntries_label_ts (copyDot : Bool) (hashOk : String → Bool)
    (recurse : String → List Placement × Bool) (dn srcmount ts : String)
    (hrec : ∀ loc pl, pl ∈ (recurse loc).1 → pl.label = dn ∧ pl.ts = ts) :
    ∀ (location : String) (es : List DirEntry) (pl : Placement),
      pl ∈ (walkEntries copyDot hashOk recurse dn srcmount ts location es).1 →
        pl.label = dn ∧ pl.ts = ts := by
  intro location es
  induction es with
  | nil => intro pl hpl; simp [walkEntries] at hpl
  | cons e rest ih =>
    intro pl hpl
    rw [walkEntries] at hpl
    dsimp only at hpl
    split at hpl
    · exact ih pl hpl
    · split at hpl
      · rcases List.mem_cons.mp hpl with h | h
        · subst h; exact ⟨rfl, rfl⟩
        · exact ih pl h
      · split at hpl
        · exact hrec _ pl hpl
        · rcases List.mem_append.mp hpl with h | h
          · exact hrec _ pl h
          · exact ih pl h
      · split at hpl
        · rcases List.mem_cons.mp hpl with h | h
          · subst h; exact ⟨rfl, rfl⟩
          · exact ih pl h
        · simp at hpl

theorem backup_dir_label_ts (copyDot : Bool) (listdir : String → List DirEntry)
    (hashOk : String → Bool) (dn srcmount ts : String) :
    ∀ (fuel : Nat) (location : String) (pl : Placement),
      pl ∈ (backup_dir copyDot listdir hashOk dn srcmount ts fuel location).1 →
        pl.label = dn ∧ pl.ts = ts := by
  intro fuel
  induction fuel with
  | zero => intro location pl hpl; simp [backup_dir] at hpl
  | succ n ih =>
    intro location pl hpl
    rw [backup_dir] at hpl
    exact walkEntries_label_ts copyDot hashOk _ dn srcmount ts
      (fun loc q hq => ih loc q hq) location _ pl hpl

theorem backupPartsGo_placements (copyDot : Bool) (listdir : String → List DirEntry)
    (hashOk : String → Bool) (fuel : Nat) (disk disklocation ts : String) :
    ∀ (parts : List String) (tr : RunTrace) (pl : Placement),
      pl ∈ (backupPartsGo copyDot listdir hashOk fuel disk disklocation ts parts tr).placements →
        pl ∈ tr.placements ∨ (pl.ts = ts ∧ ∃ p, p ∈ parts ∧ p ≠ disk ∧ pl.label = lastComp p) := by
  intro parts
  induction parts with
  | nil => intro tr pl hpl; exact Or.inl hpl
  | cons p rest ih =>
    intro tr pl hpl
    rw [backupPartsGo] at hpl
    dsimp only at hpl
    by_cases hpd : p = disk
    · rw [if_pos hpd] at hpl
      rcases ih tr pl hpl with h | ⟨hts, q, hq, hqd, hlab⟩
      · exact Or.inl h
      · exact Or.inr ⟨hts, q, List.mem_cons_of_mem p hq, hqd, hlab⟩
    · rw [if_neg hpd] at hpl
      split at hpl
      · rcases List.mem_append.mp hpl with h | h
        · exact Or.inl h
        · have := backup_dir_label_ts copyDot listdir hashOk (lastComp p)
            (pjoin disklocation (lastComp p)) ts fuel "" pl h
          exact Or.inr ⟨this.2, p, List.mem_cons_self p rest, hpd, this.1⟩
      · rcases ih _ pl hpl with h | ⟨hts, q, hq, hqd, hlab⟩
        · rcases List.mem_append.mp h with h2 | h2
          · exact Or.inl h2
          · have := backup_dir_label_ts copyDot listdir hashOk (lastComp p)
              (pjoin disklocation (lastComp p)) ts fuel "" pl h2
            exact Or.inr ⟨this.2, p, List.mem_cons_self p rest, hpd, this.1⟩
        · exact Or.inr ⟨hts, q, List.mem_cons_of_mem p hq, hqd, hlab⟩

theorem backup_placements_ts (copyDot : Bool) (listdir : String → List DirEntry)
    (hashOk : String → Bool) (fuel : Nat) (mountdir disk : String)
    (partitions : List String) (i : Instant) :
    ∀ pl ∈ (backup copyDot listdir hashOk fuel mountdir disk partitions i).placements,
      pl.ts = mintTimestamp i := by
  intro pl hpl
  rw [backup] at hpl
  dsimp only at hpl
  split at hpl
  · exact (backup_dir_label_ts copyDot listdir hashOk (lastComp disk)
      (pjoin mountdir (lastComp disk)) (mintTimestamp i) fuel "" pl hpl).2
  · rcases backupPartsGo_placements copyDot listdir hashOk fuel disk
        (pjoin mountdir (lastComp disk)) (mintTimestamp i) partitions _ pl hpl with h | ⟨hts, _⟩
    · simp at h
    · exact hts

theorem dchar_lt_aux : ∀ a, a < 10 → ∀ b, b < 10 → a < b → dchar a < dchar b := by decide

theorem dchar_inj_aux : ∀ a, a < 10 → ∀ b, b < 10 → dchar a = dchar b → a = b := by decide

theorem dchar_mod (x : Nat) : dchar (x % 10) = dchar x := by
  unfold dchar; congr 1; omega

theorem dchar_lt (x y : Nat) (h : x % 10 < y % 10) : dchar x < dchar y := by
  rw [← dchar_mod x, ← dchar_mod y]
  exact dchar_lt_aux _ (by omega) _ (by omega) h

theorem dchar_inj (x y : Nat) (h : dchar x = dchar y) : x % 10 = y % 10 := by
  rw [← dchar_mod x, ← dchar_mod y] at h
  exact dchar_inj_aux _ (by omega) _ (by omega) h

theorem lex_append_same (r : Char → Char → Prop) (xs : List Char) (l l' : List Char)
    (h : List.Lex r l l') : List.Lex r (xs ++ l) (xs ++ l') := by
  induction xs with
  | nil => exact h
  | cons c cs ih => simpa only [List.cons_append] using List.Lex.cons ih

theorem lex2_lt (a b : Nat) (ha : a < 100) (hb : b < 100) (hab : a < b) (l l' : List Char) :
    List.Lex (· < ·) (dlist2 a ++ l) (dlist2 b ++ l') := by
  unfold dlist2
  simp only [List.cons_append, List.nil_append]
  rcases Nat.lt_or_ge (a / 10) (b / 10) with h1 | h1
  · exact List.Lex.rel (dchar_lt _ _ (by omega))
  · have e1 : a / 10 = b / 10 := by omega
    rw [e1]
    exact List.Lex.cons (List.Lex.rel (dchar_lt _ _ (by omega)))

theorem lex4_lt (a b : Nat) (ha : a < 10000) (hb : b < 10000) (hab : a < b) (l l' : List Char) :
    List.Lex (· < ·) (dlist4 a ++ l) (dlist4 b ++ l') := by
  unfold dlist4
  simp only [List.cons_append, List.nil_append]
  rcases Nat.lt_or_ge (a / 1000) (b / 1000) with h1 | h1
  · exact List.Lex.rel (dchar_lt _ _ (by omega))
  · have e1 : a / 1000 = b / 1000 := by omega
    rw [e1]
    rcases Nat.lt_or_ge (a / 100) (b / 100) with h2 | h2
    · exact List.Lex.cons (List.Lex.rel (dchar_lt _ _ (by omega)))
    · have e2 : a / 100 = b / 100 := by omega
      rw [e2]
      rcases Nat.lt_or_ge (a / 10) (b / 10) with h3 | h3
      · exact List.Lex.cons (List.Lex.cons (List.Lex.rel (dchar_lt _ _ (by omega))))
      · have e3 : a / 10 = b / 10 := by omega
        rw [e3]
        exact List.Lex.cons (List.Lex.cons (List.Lex.cons (List.Lex.rel (dchar_lt _ _ (by omega)))))

theorem strftime_inj (t t' : Tm) (hw : TmWF t) (hw' : TmWF t') (h : strftime t = strftime t') :
    t = t' := by
  obtain ⟨y, mo, dd, hh, mi, ss⟩ := t
  obtain ⟨y', mo', dd', hh', mi', ss'⟩ := t'
  obtain ⟨hy1, hy2, hmo, hd, hhh, hmi, hs⟩ := hw
  obtain ⟨hy1', hy2', hmo', hd', hhh', hmi', hs'⟩ := hw'
  dsimp only at hy1 hy2 hmo hd hhh hmi hs hy1' hy2' hmo' hd' hhh' hmi' hs'
  have h2 : tchars ⟨y, mo, dd, hh, mi, ss⟩ = tchars ⟨y', mo', dd', hh', mi', ss'⟩ :=
    congrArg String.toList h
  simp only [tchars, dlist4, dlist2, List.cons_append, List.nil_append, List.cons.injEq,
    eq_self_iff_true, true_and, and_true] at h2
  obtain ⟨a1, a2, a3, a4, b1, b2, c1, c2, d1, d2, e1, e2, f1, f2⟩ := h2
  have ha1 := dchar_inj _ _ a1
  have ha2 := dchar_inj _ _ a2
  have ha3 := dchar_inj _ _ a3
  have ha4 := dchar_inj _ _ a4
  have hb1 := dchar_inj _ _ b1
  have hb2 := dchar_inj _ _ b2
  have hc1 := dchar_inj _ _ c1
  have hc2 := dchar_inj _ _ c2
  have hd1 := dchar_inj _ _ d1
  have hd2 := dchar_inj _ _ d2
  have he1 := dchar_inj _ _ e1
  have he2 := dchar_inj _ _ e2
  have hf1 := dchar_inj _ _ f1
  have hf2 := dchar_inj _ _ f2
  simp only [Tm.mk.injEq]
  refine ⟨?_, ?_, ?_, ?_, ?_, ?_⟩ <;> omega

theorem strftime_mono (t t' : Tm) (hw : TmWF t) (hw' : TmWF t') (hk : tmKey t < tmKey t') :
    strftime t < strftime t' := by
  obtain ⟨hy1, hy2, hmo, hd, hh, hmi, hs⟩ := hw
  obtain ⟨hy1', hy2', hmo', hd', hh', hmi', hs'⟩ := hw'
  have hlt : List.Lex (· < ·) (tchars t) (tchars t') := by
    unfold tmKey at hk
    unfold tchars
    rcases (show t.year < t'.year ∨ (t.year = t'.year ∧ (t.month < t'.month ∨ (t.month = t'.month
        ∧ (t.day < t'.day ∨ (t.day = t'.day ∧ (t.hour < t'.hour ∨ (t.hour = t'.hour
        ∧ (t.minute < t'.minute ∨ (t.minute = t'.minute ∧ t.second < t'.second)))))))))
      by omega) with h1 | ⟨e1, h1⟩
    · exact lex4_lt _ _ hy2 hy2' h1 _ _
    · rw [e1]
      apply lex_append_same _ (dlist4 t'.year)
      apply List.Lex.cons
      rcases h1 with h2 | ⟨e2, h2⟩
      · exact lex2_lt _ _ hmo hmo' h2 _ _
      · rw [e2]
        apply lex_append_same _ (dlist2 t'.month)
        apply List.Lex.cons
        rcases h2 with h3 | ⟨e3, h3⟩
        · exact lex2_lt _ _ hd hd' h3 _ _
        · rw [e3]
          apply lex_append_same _ (dlist2 t'.day)
          apply List.Lex.cons
          rcases h3 with h4 | ⟨e4, h4⟩
          · exact lex2_lt _ _ hh hh' h4 _ _
          · rw [e4]
            apply lex_append_same _ (dlist2 t'.hour)
            apply List.Lex.cons
            rcases h4 with h5 | ⟨e5, h5⟩
            · exact lex2_lt _ _ hmi hmi' h5 _ _
            · rw [e5]
              apply lex_append_same _ (dlist2 t'.minute)
              apply List.Lex.cons
              exact lex2_lt _ _ hs hs' h5 [] []
  rw [String.lt_iff_toList_lt]
  exact hlt

theorem splitSep_ne_nil : ∀ l : List Char, splitSep l ≠ [] := by
  intro l
  induction l with
  | nil => simp [splitSep]
  | cons c cs ih =>
    rw [splitSep]
    rcases hs : splitSep cs with _ | ⟨h, t⟩
    · exact absurd hs ih
    · dsimp only
      split <;> simp

theorem splitSep_append_sep : ∀ a b : List Char, splitSep (a ++ '/' :: b) = splitSep a ++ splitSep b := by
  intro a b
  induction a with
  | nil =>
    rcases hs : splitSep b with _ | ⟨h, t⟩
    · exact absurd hs (splitSep_ne_nil b)
    · simp [splitSep, hs]
  | cons c cs ih =>
    rcases hs : splitSep (cs ++ '/' :: b) with _ | ⟨h, t⟩
    · exact absurd hs (splitSep_ne_nil (cs ++ '/' :: b))
    · rcases hs2 : splitSep cs with _ | ⟨h2, t2⟩
      · exact absurd hs2 (splitSep_ne_nil cs)
      · by_cases hc : c = '/'
        · simp [splitSep, hs, hs2, hc, hs2 ▸ hs ▸ ih]
        · simp [splitSep, hs, hs2, hc, hs2 ▸ hs ▸ ih]

theorem filter_splitSep_dropWhile : ∀ l : List Char,
    (splitSep (l.dropWhile (fun c => c = '/'))).filter (fun c => c ≠ [])
      = (splitSep l).filter (fun c => c ≠ []) := by
  intro l
  induction l with
  | nil => rfl
  | cons c cs ih =>
    by_cases hc : c = '/'
    · subst hc
      rcases hs : splitSep cs with _ | ⟨h, t⟩
      · exact absurd hs (splitSep_ne_nil cs)
      · rw [List.dropWhile_cons_of_pos (by simp), ih, hs]
        simp [splitSep, hs]
    · rw [List.dropWhile_cons_of_neg (by simp [hc])]

theorem splitComps_append_sep (a b : String) :
    splitComps (String.mk (a.data ++ '/' :: b.data)) = splitComps a ++ splitComps b := by
  unfold splitComps
  rw [show (String.mk (a.data ++ '/' :: b.data)).data = a.data ++ '/' :: b.data from rfl,
    splitSep_append_sep, List.filter_append, List.map_append]

theorem splitComps_dropWhile (r : String) :
    splitComps (String.mk (r.data.dropWhile (fun c => c = '/'))) = splitComps r := by
  unfold splitComps
  rw [show (String.mk (r.data.dropWhile (fun c => c = '/'))).data
      = r.data.dropWhile (fun c => c = '/') from rfl, filter_splitSep_dropWhile]

theorem normalizeComps_clean_aux :
    ∀ (cs : List String) (acc : List String), (∀ c ∈ cs, c ≠ "." ∧ c ≠ "..") →
      cs.foldl (fun acc c => if c = "." then acc else if c = ".." then acc.dropLast
        else acc ++ [c]) acc = acc ++ cs := by
  intro cs
  induction cs with
  | nil => intro acc _; simp
  | cons c rest ih =>
    intro acc h
    have hc := h c (List.mem_cons_self c rest)
    rw [List.foldl_cons, if_neg hc.1, if_neg hc.2,
      ih (acc ++ [c]) (fun q hq => h q (List.mem_cons_of_mem c hq))]
    simp

theorem normalizeComps_clean (cs : List String) (h : ∀ c ∈ cs, c ≠ "." ∧ c ≠ "..") :
    normalizeComps cs = cs := by
  unfold normalizeComps
  rw [normalizeComps_clean_aux cs [] h]
  simp

theorem isPrefixOf_append_self {α : Type} [BEq α] [LawfulBEq α] (l t : List α) :
    List.isPrefixOf l (l ++ t) = true := by
  induction l with
  | nil => simp [List.isPrefixOf]
  | cons a as ih => simp [List.isPrefixOf, ih]

/-! ## The claims -/

/-- Claim C1 (the dedup hard-link behavior, violated by the code): placing the
second of two identical-content source files with hardlink-dedup enabled. The
first placement was byte-copied, verified and recorded with digest `"d1"`; the
second placement's pre-copy digest is the same `"d1"`, so the claim requires a
hard link from the recorded destination and no byte copy. But `copyfile`'s
lookup table is the constant `['TODO']` (copycat.py:102), which contains no
SHA-512 hexdigest, so the second file is byte-copied (`cpCount = 1`) and no
hard link is ever created (`lnCount = 0`); a second physical copy is made and
recorded. -/
theorem dedup_lookup_never_links :
    db_hash_table = ["TODO"]
    ∧ traceOf (copyfile cfgQuiet envSame "/mnt/copycat" "sda" "/media/copycat/sda" "" "b.txt" "t0" 1 trInit)
        = ⟨[], 1, 0, true, [("d1", "t0", "/media/copycat/sda/b.txt", "/mnt/copycat/t0/sda/b.txt")]⟩ :=
  ⟨rfl, rfl⟩

/-- Claim C2, counterexample: a file whose pre/post digests mismatch on all
three attempts. After the retries are exhausted, `copyfile` reports
"Could not copy ..." but the destination file written by the final `cp -a`
remains in the destination tree (`destPresent = true`); the claim's assertion
that the entry is absent from the destination tree is false. -/
theorem exhausted_retries_leave_corrupt_copy :
    traceOf (copyfile cfgQuiet envMismatch "/mnt/copycat" "sda" "/media/copycat/sda" "" "f.txt" "t0" 1 trInit)
      = ⟨["Could not copy /media/copycat/sda/f.txt"], 3, 0, true, []⟩
    ∧ ¬ (traceOf (copyfile cfgQuiet envMismatch "/mnt/copycat" "sda" "/media/copycat/sda" "" "f.txt" "t0" 1 trInit)).destPresent = false :=
  ⟨rfl, by decide⟩

/-- Claim C2, amended: for every configuration and every file whose pre- and
post-copy digests are present but disagree on all three attempts (and whose
digests are genuine hexdigests, never the stub entry `"TODO"`), `copyfile`
returns normally (non-fatal), reports the `"Could not copy"` failure, inserts
no verified record — but the last attempt's unverified copy remains at the
destination (`destPresent = true`); the file is never removed. -/
theorem copyfile_exhausted_reports_and_keeps_dest (cfg : CopyCfg) (env : AttemptEnv)
    (backupdir dn location subdir file ts : String) (tr : CopyTrace)
    (h : ∀ n, 1 ≤ n → n ≤ 3 →
      ∃ p q, env.pre n = .digest p ∧ env.post n = .digest q ∧ p ≠ q ∧ p ∉ db_hash_table) :
    ∃ tr', copyfile cfg env backupdir dn location subdir file ts 1 tr = .ok tr'
      ∧ tr'.destPresent = true
      ∧ tr'.records = tr.records
      ∧ ("Could not copy " ++ pjoin (pjoin location subdir) file) ∈ tr'.msgs := by
  refine ⟨_, copyfile_mismatch_run cfg env backupdir dn location subdir file ts tr h, ?_, ?_, ?_⟩ <;>
    simp [mismatchFinal, logCopying_destPresent, logCopying_records]

theorem copyfile_exhausted_reports_witness :
    ∃ tr', copyfile cfgQuiet envMismatch "/mnt/copycat" "sdb" "/media/copycat/sdb" "" "g.txt" "t1" 1 trInit = .ok tr'
      ∧ tr'.destPresent = true
      ∧ tr'.records = trInit.records
      ∧ ("Could not copy " ++ pjoin (pjoin "/media/copycat/sdb" "") "g.txt") ∈ tr'.msgs :=
  copyfile_exhausted_reports_and_keeps_dest cfgQuiet envMismatch "/mnt/copycat" "sdb" "/media/copycat/sdb" "" "g.txt" "t1" trInit
    (fun _ _ _ => ⟨"aa", "bb", rfl, rfl, by decide, by decide⟩)

/-- Claim C3 (hash failure represented as digest absence, violated by the
code): when `hash_file` cannot open/read the source, the `IOError` it raises
is not caught anywhere in `copyfile` — the call ends in `Except.error`
(an escaping exception), not in a retry or per-file failure; and in the
walker, an unreadable `bad.txt` aborts the whole walk (`crashed = true`) with
the following `good.txt` never visited, instead of the walk continuing. -/
theorem hash_ioerror_crashes_copy_and_walk :
    copyfile cfgQuiet envBad "/mnt/copycat" "sda" "/media/copycat/sda" "" "f.txt" "t0" 1 trInit
      = .error trInit
    ∧ backup_dir false listUnreadable hashOkUnreadable "sda" "/media/copycat/sda" "t0" 2 "" = ([], true) :=
  ⟨rfl, rfl⟩

/-- Claim C4: for every configuration and every file whose pre- and post-copy
digests disagree on each attempt (the digests being genuine hexdigests, never
the stub entry `"TODO"` — a SHA-512 hexdigest has 128 characters), `copyfile`
starting at `numtry = 1` performs exactly 3 copy attempts
(`cpCount = tr.cpCount + 3`, no hard links), then reports
`"Could not copy <src>"` and returns normally: non-fatal to the run, with no
further attempts. -/
theorem copyfile_retries_three_attempts (cfg : CopyCfg) (env : AttemptEnv)
    (backupdir dn location subdir file ts : String) (tr : CopyTrace)
    (h : ∀ n, 1 ≤ n → n ≤ 3 →
      ∃ p q, env.pre n = .digest p ∧ env.post n = .digest q ∧ p ≠ q ∧ p ∉ db_hash_table) :
    ∃ tr', copyfile cfg env backupdir dn location subdir file ts 1 tr = .ok tr'
      ∧ tr'.cpCount = tr.cpCount + 3
      ∧ tr'.lnCount = tr.lnCount
      ∧ ("Could not copy " ++ pjoin (pjoin location subdir) file) ∈ tr'.msgs := by
  refine ⟨_, copyfile_mismatch_run cfg env backupdir dn location subdir file ts tr h, ?_, ?_, ?_⟩ <;>
    simp [mismatchFinal, logCopying_cpCount, logCopying_lnCount]

theorem copyfile_retries_three_attempts_witness :
    ∃ tr', copyfile cfgQuiet envMismatch "/mnt/copycat" "sda" "/media/copycat/sda" "" "f.txt" "t0" 1 trInit = .ok tr'
      ∧ tr'.cpCount = trInit.cpCount + 3
      ∧ tr'.lnCount = trInit.lnCount
      ∧ ("Could not copy " ++ pjoin (pjoin "/media/copycat/sda" "") "f.txt") ∈ tr'.msgs :=
  copyfile_retries_three_attempts cfgQuiet envMismatch "/mnt/copycat" "sda" "/media/copycat/sda" "" "f.txt" "t0" trInit
    (fun _ _ _ => ⟨"aa", "bb", rfl, rfl, by decide, by decide⟩)

/-- Claim C5: partial hashing is selected exactly when the file size exceeds
32 MiB (33554432 bytes), and for any two contents of the same such size the
byte stream folded into SHA-512 by the partial `hash_file` is equal iff the
contents agree on the three 1 MiB windows (first 1 MiB, last 1 MiB, and the
1 MiB block centered at the midpoint). Hence — under the collision-free
idealization of SHA-512 — changing a byte outside the windows leaves the
digest unchanged, and changing a byte inside any window changes it. -/
theorem hash_partial_threshold_and_windows (d d' : List Nat)
    (hlen : d.length = d'.length) (hbig : 33554432 < d.length) :
    (∀ size : Nat, is_partial_hash size = true ↔ 33554432 < size)
    ∧ is_partial_hash d.length = true
    ∧ (hashStream d true = hashStream d' true ↔
        ∀ i, inWindow d.length i → d[i]? = d'[i]?) := by
  have hbs : block_size = 1048576 := rfl
  refine ⟨fun size => by simp [is_partial_hash], by simpa [is_partial_hash] using hbig, ?_⟩
  simp only [hashStream, if_true]
  rw [← hlen]
  constructor
  · intro hst i hw
    obtain ⟨hAB, hC⟩ := List.append_inj hst (by simp [hlen])
    obtain ⟨hA, hB⟩ := List.append_inj hAB (by simp [hlen])
    rcases hw with h1 | ⟨h2a, h2b⟩ | ⟨h3a, h3b⟩
    · have := congrArg (fun l => l[i]?) hA
      simpa only [List.getElem?_take_of_lt h1] using this
    · have hj : i - (d.length - block_size) < block_size := by omega
      have := congrArg (fun l => l[i - (d.length - block_size)]?) hB
      simp only [List.getElem?_take_of_lt hj, List.getElem?_drop] at this
      rwa [show d.length - block_size + (i - (d.length - block_size)) = i by omega] at this
    · have hj : i - (d.length / 2 - block_size / 2) < block_size := by omega
      have := congrArg (fun l => l[i - (d.length / 2 - block_size / 2)]?) hC
      simp only [List.getElem?_take_of_lt hj, List.getElem?_drop] at this
      rwa [show d.length / 2 - block_size / 2 + (i - (d.length / 2 - block_size / 2)) = i
        by omega] at this
  · intro hag
    have hA : d.take block_size = d'.take block_size := by
      apply List.ext_getElem?
      intro k
      by_cases hk : k < block_size
      · rw [List.getElem?_take_of_lt hk, List.getElem?_take_of_lt hk]
        exact hag k (Or.inl hk)
      · rw [List.getElem?_take_eq_none (by omega), List.getElem?_take_eq_none (by omega)]
    have hB : (d.drop (d.length - block_size)).take block_size
        = (d'.drop (d.length - block_size)).take block_size := by
      apply List.ext_getElem?
      intro k
      by_cases hk : k < block_size
      · rw [List.getElem?_take_of_lt hk, List.getElem?_take_of_lt hk,
          List.getElem?_drop, List.getElem?_drop]
        exact hag (d.length - block_size + k) (Or.inr (Or.inl ⟨by omega, by omega⟩))
      · rw [List.getElem?_take_eq_none (by omega), List.getElem?_take_eq_none (by omega)]
    have hC : (d.drop (d.length / 2 - block_size / 2)).take block_size
        = (d'.drop (d.length / 2 - block_size / 2)).take block_size := by
      apply List.ext_getElem?
      intro k
      by_cases hk : k < block_size
      · rw [List.getElem?_take_of_lt hk, List.getElem?_take_of_lt hk,
          List.getElem?_drop, List.getElem?_drop]
        exact hag (d.length / 2 - block_size / 2 + k) (Or.inr (Or.inr ⟨by omega, by omega⟩))
      · rw [List.getElem?_take_eq_none (by omega), List.getElem?_take_eq_none (by omega)]
    rw [hA, hB, hC]

theorem hash_partial_windows_witness :
    (List.replicate 33554433 (0 : Nat)).length = (List.replicate 33554433 (0 : Nat)).length
    ∧ 33554432 < (List.replicate 33554433 (0 : Nat)).length
    ∧ ((∀ size : Nat, is_partial_hash size = true ↔ 33554432 < size)
      ∧ is_partial_hash (List.replicate 33554433 (0 : Nat)).length = true
      ∧ (hashStream (List.replicate 33554433 (0 : Nat)) true
            = hashStream (List.replicate 33554433 (0 : Nat)) true ↔
          ∀ i, inWindow (List.replicate 33554433 (0 : Nat)).length i →
            (List.replicate 33554433 (0 : Nat))[i]? = (List.replicate 33554433 (0 : Nat))[i]?)) :=
  ⟨rfl, by rw [List.length_replicate]; norm_num,
   hash_partial_threshold_and_windows _ _ rfl (by rw [List.length_replicate]; norm_num)⟩

/-- Claim C6, counterexample: a device with partitions `sda1` (whose walk
raises, via an unreadable file) and `sda2`. The worker unmounts `sda1` (its
`finally` block) but the exception then propagates: `sda2` is never mounted
or processed, refuting the claim that all remaining partitions are still
processed. -/
theorem partition_walk_crash_stops_siblings :
    backup false listTwoParts hashOkTwoParts 2 "/media/copycat" "/dev/sda"
        ["/dev/sda1", "/dev/sda2"] i0
      = ⟨["Mount and backup partition /dev/sda1."], ["/dev/sda1"], ["/dev/sda1"], [], true⟩
    ∧ ¬ ("/dev/sda2" ∈ (backup false listTwoParts hashOkTwoParts 2 "/media/copycat" "/dev/sda"
        ["/dev/sda1", "/dev/sda2"] i0).mounted) :=
  ⟨rfl, by decide⟩

/-- Claim C6, amended: in the partition loop, after any prefix of partitions
whose walks succeed, a partition `p` whose walk raises an exception is still
unmounted (the `finally` block runs), but the exception propagates: the loop
records exactly the prefix and `p` as mounted and unmounted — the remaining
partitions are untouched — and the worker's trace is marked crashed, which
surfaces only as the worker's nonzero exit status. -/
theorem partition_crash_unmounts_and_aborts
    (copyDot : Bool) (listdir : String → List DirEntry) (hashOk : String → Bool)
    (fuel : Nat) (disk disklocation ts : String) :
    ∀ (ps₁ : List String) (p : String) (ps₂ : List String) (tr : RunTrace),
      (∀ q ∈ ps₁, q ≠ disk ∧
        (backup_dir copyDot listdir hashOk (lastComp q) (pjoin disklocation (lastComp q)) ts fuel "").2 = false) →
      p ≠ disk →
      (backup_dir copyDot listdir hashOk (lastComp p) (pjoin disklocation (lastComp p)) ts fuel "").2 = true →
      (backupPartsGo copyDot listdir hashOk fuel disk disklocation ts (ps₁ ++ p :: ps₂) tr).mounted
          = tr.mounted ++ ps₁ ++ [p]
      ∧ (backupPartsGo copyDot listdir hashOk fuel disk disklocation ts (ps₁ ++ p :: ps₂) tr).unmounted
          = tr.unmounted ++ ps₁ ++ [p]
      ∧ (backupPartsGo copyDot listdir hashOk fuel disk disklocation ts (ps₁ ++ p :: ps₂) tr).crashed
          = true := by
  intro ps₁
  induction ps₁ with
  | nil =>
    intro p ps₂ tr _ hpd hcrash
    rw [List.nil_append, backupPartsGo]
    dsimp only
    rw [if_neg hpd, hcrash]
    simp
  | cons q qs ih =>
    intro p ps₂ tr hq hpd hcrash
    have hq1 := hq q (List.mem_cons_self q qs)
    rw [List.cons_append, backupPartsGo]
    dsimp only
    rw [if_neg hq1.1]
    simp only [hq1.2, Bool.false_eq_true, if_false]
    have := ih p ps₂
      { tr with
          messages := tr.messages ++ ["Mount and backup partition " ++ q ++ "."],
          mounted := tr.mounted ++ [q],
          placements := tr.placements ++
            (backup_dir copyDot listdir hashOk (lastComp q) (pjoin disklocation (lastComp q)) ts fuel "").1,
          unmounted := tr.unmounted ++ [q] }
      (fun r hr => hq r (List.mem_cons_of_mem q hr)) hpd hcrash
    refine ⟨?_, ?_, this.2.2⟩
    · rw [this.1]; simp
    · rw [this.2.1]; simp

theorem partition_crash_witness :
    (backupPartsGo false listTwoParts hashOkTwoParts 2 "/dev/sda"
        (pjoin "/media/copycat" (lastComp "/dev/sda")) "2026-01-02_03_04-05"
        ([] ++ "/dev/sda1" :: ["/dev/sda2"]) ⟨[], [], [], [], false⟩).mounted
      = ([] : List String) ++ [] ++ ["/dev/sda1"]
    ∧ (backupPartsGo false listTwoParts hashOkTwoParts 2 "/dev/sda"
        (pjoin "/media/copycat" (lastComp "/dev/sda")) "2026-01-02_03_04-05"
        ([] ++ "/dev/sda1" :: ["/dev/sda2"]) ⟨[], [], [], [], false⟩).unmounted
      = ([] : List String) ++ [] ++ ["/dev/sda1"]
    ∧ (backupPartsGo false listTwoParts hashOkTwoParts 2 "/dev/sda"
        (pjoin "/media/copycat" (lastComp "/dev/sda")) "2026-01-02_03_04-05"
        ([] ++ "/dev/sda1" :: ["/dev/sda2"]) ⟨[], [], [], [], false⟩).crashed = true :=
  partition_crash_unmounts_and_aborts false listTwoParts hashOkTwoParts 2 "/dev/sda"
    (pjoin "/media/copycat" (lastComp "/dev/sda")) "2026-01-02_03_04-05"
    [] "/dev/sda1" ["/dev/sda2"] ⟨[], [], [], [], false⟩
    (fun q hq => absurd hq (List.not_mem_nil q)) (by decide) (by decide)

/-- Claim C7, counterexample: a device `/dev/sda` with one partition
`/dev/sda1` holding `f.txt`. The single placement carries label `"sda1"` (the
partition's base name passed as `disk_name`, copycat.py:209), so the file
lands at `backupdir/timestamp/sda1/f.txt` — with the partition name in place
of the disk label — and not at the claim's
`backupdir/timestamp/sda/sda1/f.txt` (disk label `sda` = `lastComp "/dev/sda"`
with the partition as a subdirectory). -/
theorem partition_label_replaces_disk_label :
    (backup false listOnePart (fun _ => true) 2 "/media/copycat" "/dev/sda" ["/dev/sda1"] i0).placements
      = [⟨"sda1", "2026-01-02_03_04-05", "", "f.txt", false⟩]
    ∧ destPathOf "/mnt/copycat" ⟨"sda1", "2026-01-02_03_04-05", "", "f.txt", false⟩
        = "/mnt/copycat/2026-01-02_03_04-05/sda1/f.txt"
    ∧ ("/mnt/copycat/2026-01-02_03_04-05/sda1/f.txt" : String)
        ≠ "/mnt/copycat/2026-01-02_03_04-05/sda/sda1/f.txt"
    ∧ lastComp "/dev/sda" = "sda" :=
  ⟨rfl, rfl, by decide, rfl⟩

/-- Claim C7, amended: for a device with partitions, every placement of the
run carries the run's single timestamp and a label equal to the base name of
one of the partitions (never the device's base name), and its destination
path is `backupStoreRoot/timestamp/<label>/<subdir>/<file>` — the partition's
base name standing in the disk-label position, with no device-name directory
level. -/
theorem partition_placements_use_partition_basename
    (copyDot : Bool) (listdir : String → List DirEntry) (hashOk : String → Bool)
    (fuel : Nat) (backupdir mountdir disk : String) (partitions : List String) (i : Instant)
    (hne : partitions ≠ []) :
    ∀ pl ∈ (backup copyDot listdir hashOk fuel mountdir disk partitions i).placements,
      pl.ts = mintTimestamp i
      ∧ (∃ p, p ∈ partitions ∧ p ≠ disk ∧ pl.label = lastComp p)
      ∧ destPathOf backupdir pl
          = pjoin (pjoin (pjoin (pjoin backupdir (mintTimestamp i)) pl.label) pl.subdir) pl.fname := by
  intro pl hpl
  rw [backup] at hpl
  dsimp only at hpl
  rw [if_neg hne] at hpl
  rcases backupPartsGo_placements copyDot listdir hashOk fuel disk
      (pjoin mountdir (lastComp disk)) (mintTimestamp i) partitions _ pl hpl with h | ⟨hts, hex⟩
  · simp at h
  · exact ⟨hts, hex, by rw [destPathOf, hts]⟩

theorem partition_placements_witness :
    (⟨"sda1", "2026-01-02_03_04-05", "", "f.txt", false⟩ : Placement).ts = mintTimestamp i0
    ∧ (∃ p, p ∈ ["/dev/sda1"] ∧ p ≠ "/dev/sda"
        ∧ (⟨"sda1", "2026-01-02_03_04-05", "", "f.txt", false⟩ : Placement).label = lastComp p)
    ∧ destPathOf "/mnt/copycat" ⟨"sda1", "2026-01-02_03_04-05", "", "f.txt", false⟩
        = pjoin (pjoin (pjoin (pjoin "/mnt/copycat" (mintTimestamp i0))
            (⟨"sda1", "2026-01-02_03_04-05", "", "f.txt", false⟩ : Placement).label)
            (⟨"sda1", "2026-01-02_03_04-05", "", "f.txt", false⟩ : Placement).subdir)
            (⟨"sda1", "2026-01-02_03_04-05", "", "f.txt", false⟩ : Placement).fname :=
  partition_placements_use_partition_basename false listOnePart (fun _ => true) 2
    "/mnt/copycat" "/media/copycat" "/dev/sda" ["/dev/sda1"] i0 (by decide)
    ⟨"sda1", "2026-01-02_03_04-05", "", "f.txt", false⟩ (by decide)

/-- Claim C8, counterexample: at mount root `/m/a` and location
`/m/a/../a/b` — a location under the mount root (it resolves to `/m/a/b`) —
the source's textual prefix-trim (`subdir_calc`) yields `"../a/b"`, while
true path-relative computation (`relative_subdir_specModel`) yields `["b"]`:
the computation used by the walker is not true path-relative computation. -/
theorem prefix_trim_not_path_relative :
    subdir_calc "/m/a" "/m/a/../a/b" = "../a/b"
    ∧ relative_subdir_specModel "/m/a" "/m/a/../a/b" = some ["b"]
    ∧ ("../a/b" : String) ≠ "b" :=
  ⟨rfl, rfl, by decide⟩

/-- Claim C8, amended: the walker's subdirectory computation is the textual
prefix-trim `location[len(srcmount):].lstrip(os.sep)`; on the locations the
walker itself generates — a root followed by a separator and further
components, all free of `.`/`..` segments — this coincides componentwise with
true path-relative computation with respect to the mount root. (Outside that
shape the two differ; see the counterexample.) -/
theorem subdir_trim_correct_on_descendants (root rel : String)
    (hroot : ∀ c ∈ splitComps root, c ≠ "." ∧ c ≠ "..")
    (hrel : ∀ c ∈ splitComps rel, c ≠ "." ∧ c ≠ "..") :
    relative_subdir_specModel root (String.mk (root.data ++ '/' :: rel.data))
      = some (splitComps (subdir_calc root (String.mk (root.data ++ '/' :: rel.data)))) := by
  have hcalc : subdir_calc root (String.mk (root.data ++ '/' :: rel.data))
      = String.mk (rel.data.dropWhile (fun c => c = '/')) := by
    unfold subdir_calc
    rw [if_pos (isPrefixOf_append_self root.data ('/' :: rel.data))]
    congr 1
    rw [show (String.mk (root.data ++ '/' :: rel.data)).data
        = root.data ++ '/' :: rel.data from rfl,
      show root.data.length = root.data.length from rfl,
      List.drop_left root.data ('/' :: rel.data)]
    simp [List.dropWhile]
  rw [hcalc, splitComps_dropWhile]
  unfold relative_subdir_specModel
  rw [splitComps_append_sep, normalizeComps_clean _ hroot,
    normalizeComps_clean _ (by
      intro c hc
      rcases List.mem_append.mp hc with h | h
      · exact hroot c h
      · exact hrel c h),
    if_pos (isPrefixOf_append_self (splitComps root) (splitComps rel)),
    List.drop_left]

theorem subdir_trim_witness :
    relative_subdir_specModel "/media/copycat/sda"
        (String.mk (("/media/copycat/sda" : String).data ++ '/' :: ("docs" : String).data))
      = some (splitComps (subdir_calc "/media/copycat/sda"
          (String.mk (("/media/copycat/sda" : String).data ++ '/' :: ("docs" : String).data)))) :=
  subdir_trim_correct_on_descendants "/media/copycat/sda" "docs" (by decide) (by decide)

/-- Claim C9, counterexample: two distinct worker start instants inside the
same wall-clock second (0 ms and 500 ms into 2026-01-02 03:04:05) are
distinct runs, yet `time.strftime("%Y-%m-%d_%H_%M-%S")` gives them the
identical backup timestamp: distinct runs can share a timestamp. -/
theorem same_second_runs_share_timestamp :
    (⟨⟨2026, 1, 2, 3, 4, 5⟩, 0⟩ : Instant) ≠ ⟨⟨2026, 1, 2, 3, 4, 5⟩, 500⟩
    ∧ mintTimestamp ⟨⟨2026, 1, 2, 3, 4, 5⟩, 0⟩ = mintTimestamp ⟨⟨2026, 1, 2, 3, 4, 5⟩, 500⟩ :=
  ⟨by decide, rfl⟩

/-- Claim C9, amended: every placement of one worker's run carries the single
timestamp minted from the worker's start instant; the timestamp string
determines the broken-down second (two in-range times with equal timestamps
are equal), and the strings are human-sortable: chronological order of the
time fields is lexicographic order of the timestamps. Runs within the same
second, however, share a timestamp (see the counterexample). -/
theorem timestamp_per_run_and_second_granularity
    (copyDot : Bool) (listdir : String → List DirEntry) (hashOk : String → Bool)
    (fuel : Nat) (mountdir disk : String) (partitions : List String) (i : Instant) :
    (∀ pl ∈ (backup copyDot listdir hashOk fuel mountdir disk partitions i).placements,
        pl.ts = mintTimestamp i)
    ∧ (∀ t t' : Tm, TmWF t → TmWF t' → strftime t = strftime t' → t = t')
    ∧ (∀ t t' : Tm, TmWF t → TmWF t' → tmKey t < tmKey t' → strftime t < strftime t') :=
  ⟨backup_placements_ts copyDot listdir hashOk fuel mountdir disk partitions i,
   strftime_inj, strftime_mono⟩

theorem timestamp_per_run_witness :
    (⟨"sda1", "2026-01-02_03_04-05", "", "f.txt", false⟩ : Placement).ts = mintTimestamp i0
    ∧ (⟨2026, 1, 2, 3, 4, 5⟩ : Tm) = ⟨2026, 1, 2, 3, 4, 5⟩
    ∧ strftime ⟨2026, 1, 2, 3, 4, 5⟩ < strftime ⟨2026, 1, 2, 3, 4, 6⟩ :=
  ⟨(timestamp_per_run_and_second_granularity false listOnePart (fun _ => true) 2
      "/media/copycat" "/dev/sda" ["/dev/sda1"] i0).1 _ (by decide),
   (timestamp_per_run_and_second_granularity false listOnePart (fun _ => true) 2
      "/media/copycat" "/dev/sda" ["/dev/sda1"] i0).2.1 _ _ (by decide) (by decide) rfl,
   (timestamp_per_run_and_second_granularity false listOnePart (fun _ => true) 2
      "/media/copycat" "/dev/sda" ["/dev/sda1"] i0).2.2 _ _ (by decide) (by decide) (by decide)⟩

/-- Claim C10, counterexample: with blacklist string `"/dev/sda1"`, the
newly-seen device `/dev/sda` — not a member of the blacklist set
`{"/dev/sda1"}` — is nevertheless excluded by the supervisor, because
Python's `disk not in config.get('blacklist')` is substring containment and
`"/dev/sda"` occurs inside `"/dev/sda1"`; the spec-side exact-membership test
(`newly_attached_specModel`) would treat it as newly attached. -/
theorem blacklist_substring_excludes_nonmember :
    newly_attached ["/dev/sda"] [] "/dev/sda1" "/dev/sda" = false
    ∧ newly_attached_specModel ["/dev/sda"] [] ["/dev/sda1"] "/dev/sda" = true
    ∧ ("/dev/sda" : String) ≠ "/dev/sda1" := by
  refine ⟨rfl, rfl, by decide⟩

/-- Claim C10, amended: a device is treated as newly attached (eligible to
start a backup, before the debounce re-check) iff it is present in the
current poll's list, absent from the previous poll's list, and its address
does not occur as a substring of the configured blacklist string. Exactly
listed devices are thereby always excluded, but so is any device whose
address happens to be a substring of the blacklist. -/
theorem newly_attached_characterization :
    ∀ (current last : List String) (blacklist disk : String),
      newly_attached current last blacklist disk = true
        ↔ (disk ∈ current ∧ disk ∉ last ∧ isSubstr disk.data blacklist.data = false) := by
  intro current last blacklist disk
  unfold newly_attached
  simp [List.contains_eq_any_beq, List.any_eq_true, Bool.not_eq_true']
  constructor
  · rintro ⟨⟨h1, h2⟩, h3⟩
    exact ⟨by simpa using h1, by simpa using h2, h3⟩
  · rintro ⟨h1, h2, h3⟩
    exact ⟨⟨by simpa using h1, by simpa using h2⟩, h3⟩
